import Mathlib

/-!
Shallow embedding of the core pipeline of the lca-microservice product
controller: the classification orchestrator (`processProductAI`), the
tabular bulk-upload normalizer (`bulkUploadProducts`) and the archive
image distributor (`bulkImageUpload`), together with theorems settling
the specification claims about them.

Record-store writes (`updateOne` / `insertMany`) are modelled as pure
state transformations applied in program order; the external
classification and emission collaborators are modelled as oracle inputs
(an `Outcome` per record), since the source treats them as opaque
fallible calls.  Machine floats are modelled as exact rationals: the
source stores the very sum it computed, so its arithmetic identities are
exact.
-/

namespace LCA

/-- The four values of `aiProcessingStatus`. -/
inductive AIStatus where
  | pending
  | processing
  | completed
  | failed
deriving DecidableEq, Repr

/-- One bill-of-materials entry, as produced by `classifyBOM`. -/
structure Material where
  materialClass : String
  specificMaterial : String
  weight : ℚ
deriving DecidableEq, Repr

/-- One manufacturing-process group, as produced by
`classifyManufacturingProcess`. -/
structure ProcessGroup where
  category : String
  processes : List String
deriving DecidableEq, Repr

/-- Result of `classifyProduct`: an object that may or may not carry
`category` / `subcategory` string fields. -/
structure ClassifyResult where
  category : Option String
  subcategory : Option String
deriving DecidableEq, Repr

/-- A product record as stored in the record store.  `aiProcessingStatus`
is `none` for a record never stamped with a status. -/
structure ProductRecord where
  code : String
  name : String
  description : String
  weight : Option ℚ
  countryOfOrigin : Option String
  supplierName : Option String
  category : Option String
  subCategory : Option String
  images : List String
  materials : List Material
  productManufacturingProcess : List ProcessGroup
  co2Emission : ℚ
  co2EmissionRawMaterials : ℚ
  co2EmissionFromProcesses : ℚ
  aiProcessingStatus : Option AIStatus
  createdDate : ℕ
  modifiedDate : ℕ
deriving DecidableEq, Repr

/-- JavaScript truthiness of an optionally-present string field accessed
through optional chaining: absent and the empty string are falsy. -/
def truthyStr : Option String → Bool
  | none => false
  | some s => s ≠ ""

/-- The guard of line 259 of the controller:
`classifyResult?.category && classifyResult?.subcategory`. -/
def classifyOk : Option ClassifyResult → Bool
  | none => false
  | some cr => truthyStr cr.category && truthyStr cr.subcategory

/-- Post-retry outcome of the per-record collaborator calls (steps 2-5 of
the orchestrator).  `Except.error m` models a thrown error with message
`m` that survived the single retry. -/
structure Outcome where
  classify : Except String (Option ClassifyResult)
  bom : Except String (List Material)
  mfg : Except String (List ProcessGroup)
  rawEmissions : Except String ℚ
  procEmissions : Except String ℚ

/-- The `updateOne` of lines 225-228: set status to `processing`. -/
def processingUpdate (r : ProductRecord) : ProductRecord :=
  { r with aiProcessingStatus := some AIStatus.processing }

/-- The `updateOne` of lines 281-284 and 290-293: set status to `failed`,
touching no other field. -/
def failedUpdate (r : ProductRecord) : ProductRecord :=
  { r with aiProcessingStatus := some AIStatus.failed }

/-- The `updateOne` of lines 260-275: persist classification, BOM,
manufacturing process, the three emission figures, status `completed` and
a refreshed modified timestamp. -/
def completedUpdate (r : ProductRecord) (cr : ClassifyResult)
    (bomR : List Material) (mfgR : List ProcessGroup)
    (raw proc : ℚ) (now : ℕ) : ProductRecord :=
  { r with
    category := cr.category
    subCategory := cr.subcategory
    materials := bomR
    productManufacturingProcess := mfgR
    co2Emission := raw + proc
    co2EmissionRawMaterials := raw
    co2EmissionFromProcesses := proc
    aiProcessingStatus := some AIStatus.completed
    modifiedDate := now }

/-- The sequence of record states persisted for one record by the body of
the per-record closure (lines 222-299), in program order: first the
`processing` stamp, then either the completed update, the
classification-failed update, or the catch-block failed update. -/
def processOneUpdates (r : ProductRecord) (o : Outcome) (now : ℕ) :
    List ProductRecord :=
  let r1 := processingUpdate r
  match o.classify with
  | .error _ => [r1, failedUpdate r1]
  | .ok ocr =>
    match o.bom with
    | .error _ => [r1, failedUpdate r1]
    | .ok bomR =>
      match o.mfg with
      | .error _ => [r1, failedUpdate r1]
      | .ok mfgR =>
        match o.rawEmissions with
        | .error _ => [r1, failedUpdate r1]
        | .ok raw =>
          match o.procEmissions with
          | .error _ => [r1, failedUpdate r1]
          | .ok proc =>
            match ocr with
            | some cr =>
              if truthyStr cr.category && truthyStr cr.subcategory then
                [r1, completedUpdate r1 cr bomR mfgR raw proc now]
              else
                [r1, failedUpdate r1]
            | none => [r1, failedUpdate r1]

/-- Final persisted state of one record after its per-record closure ran. -/
def processOne (r : ProductRecord) (o : Outcome) (now : ℕ) : ProductRecord :=
  (processOneUpdates r o now).getLastD (processingUpdate r)

/-- Log line emitted by the per-record closure. -/
inductive LogLine where
  | completedLog (code category subcategory : String)
  | failedWarn (code : String)
  | errorLog (code msg : String)
deriving DecidableEq, Repr

/-- The log emitted for one record: the completed info line, the
classification-failed warning, or the catch-block error log carrying the
thrown message. -/
def processOneLogLine (r : ProductRecord) (o : Outcome) : LogLine :=
  match o.classify with
  | .error m => .errorLog r.code m
  | .ok ocr =>
    match o.bom with
    | .error m => .errorLog r.code m
    | .ok _ =>
      match o.mfg with
      | .error m => .errorLog r.code m
      | .ok _ =>
        match o.rawEmissions with
        | .error m => .errorLog r.code m
        | .ok _ =>
          match o.procEmissions with
          | .error m => .errorLog r.code m
          | .ok _ =>
            match ocr with
            | some cr =>
              if truthyStr cr.category && truthyStr cr.subcategory then
                .completedLog r.code (cr.category.getD "") (cr.subcategory.getD "")
              else
                .failedWarn r.code
            | none => .failedWarn r.code

/-- The scan filter of lines 215-217: only records whose status is
exactly `pending` are selected. -/
def isPending (r : ProductRecord) : Bool :=
  r.aiProcessingStatus = some AIStatus.pending

/-- The orchestrator `processProductAI`: every record still `pending` is
run through its per-record closure (with its own collaborator outcome),
every other record is untouched.  `o i` is the collaborator outcome for
the record at index `i`. -/
def processProductAI (records : List ProductRecord) (o : ℕ → Outcome)
    (now : ℕ) : List ProductRecord :=
  match records with
  | [] => []
  | r :: rest =>
    (if isPending r then processOne r (o 0) now else r) ::
      processProductAI rest (fun i => o (i + 1)) now

/-- Any record whose status is `completed` carries the emission sum. -/
def emissionInvariant (r : ProductRecord) : Prop :=
  r.aiProcessingStatus = some AIStatus.completed →
    r.co2Emission = r.co2EmissionRawMaterials + r.co2EmissionFromProcesses

/-- True when a fallible call succeeded. -/
def isOkE {ε α : Type} : Except ε α → Bool
  | .ok _ => true
  | .error _ => false

/-- A collaborator outcome in which some step threw. -/
def anyStepErr (o : Outcome) : Bool :=
  !isOkE o.classify || !isOkE o.bom || !isOkE o.mfg ||
    !isOkE o.rawEmissions || !isOkE o.procEmissions

/-- The message of the first step that threw, in program order. -/
def firstErr (o : Outcome) : Option String :=
  match o.classify with
  | .error m => some m
  | .ok _ =>
    match o.bom with
    | .error m => some m
    | .ok _ =>
      match o.mfg with
      | .error m => some m
      | .ok _ =>
        match o.rawEmissions with
        | .error m => some m
        | .ok _ =>
          match o.procEmissions with
          | .error m => some m
          | .ok _ => none

/-- The data of the completed branch, when the outcome reaches it: all
five calls succeeded and the classification carries truthy category and
subcategory. -/
def completedCase (o : Outcome) :
    Option (ClassifyResult × List Material × List ProcessGroup × ℚ × ℚ) :=
  match o.classify with
  | .error _ => none
  | .ok ocr =>
    match o.bom with
    | .error _ => none
    | .ok bomR =>
      match o.mfg with
      | .error _ => none
      | .ok mfgR =>
        match o.rawEmissions with
        | .error _ => none
        | .ok raw =>
          match o.procEmissions with
          | .error _ => none
          | .ok proc =>
            match ocr with
            | some cr =>
              if truthyStr cr.category && truthyStr cr.subcategory then
                some (cr, bomR, mfgR, raw, proc)
              else none
            | none => none

/-- The update trace is always the processing stamp followed by the final
update. -/
theorem processOneUpdates_shape (r : ProductRecord) (o : Outcome) (now : ℕ) :
    processOneUpdates r o now = [processingUpdate r, processOne r o now] := by
  rcases o with ⟨c, b, m, ra, pr⟩
  rcases c with e | ocr
  · simp [processOne, processOneUpdates]
  rcases b with e2 | bomR
  · simp [processOne, processOneUpdates]
  rcases m with e3 | mfgR
  · simp [processOne, processOneUpdates]
  rcases ra with e4 | raw
  · simp [processOne, processOneUpdates]
  rcases pr with e5 | proc
  · simp [processOne, processOneUpdates]
  rcases ocr with _ | cr
  · simp [processOne, processOneUpdates]
  by_cases hok : truthyStr cr.category && truthyStr cr.subcategory <;>
    simp [processOne, processOneUpdates, hok]

/-- Characterization of the final per-record update. -/
theorem processOne_spec (r : ProductRecord) (o : Outcome) (now : ℕ) :
    processOne r o now =
      match completedCase o with
      | some (cr, bomR, mfgR, raw, proc) =>
          completedUpdate (processingUpdate r) cr bomR mfgR raw proc now
      | none => failedUpdate (processingUpdate r) := by
  rcases o with ⟨c, b, m, ra, pr⟩
  rcases c with e | ocr
  · simp [processOne, processOneUpdates, completedCase]
  rcases b with e2 | bomR
  · simp [processOne, processOneUpdates, completedCase]
  rcases m with e3 | mfgR
  · simp [processOne, processOneUpdates, completedCase]
  rcases ra with e4 | raw
  · simp [processOne, processOneUpdates, completedCase]
  rcases pr with e5 | proc
  · simp [processOne, processOneUpdates, completedCase]
  rcases ocr with _ | cr
  · simp [processOne, processOneUpdates, completedCase]
  by_cases hok : truthyStr cr.category && truthyStr cr.subcategory <;>
    simp [processOne, processOneUpdates, completedCase, hok]

/-- When a step threw, the completed branch is unreachable. -/
theorem completedCase_none_of_err (o : Outcome) (h : anyStepErr o = true) :
    completedCase o = none := by
  rcases o with ⟨c, b, m, ra, pr⟩
  rcases c with e | ocr <;> rcases b with e2 | bomR <;> rcases m with e3 | mfgR <;>
    rcases ra with e4 | raw <;> rcases pr with e5 | proc <;>
      simp_all [completedCase, anyStepErr, isOkE]

/-- When a step threw, some first error message exists. -/
theorem firstErr_some_of_err (o : Outcome) (h : anyStepErr o = true) :
    ∃ msg, firstErr o = some msg := by
  rcases o with ⟨c, b, m, ra, pr⟩
  rcases c with e | ocr <;> rcases b with e2 | bomR <;> rcases m with e3 | mfgR <;>
    rcases ra with e4 | raw <;> rcases pr with e5 | proc <;>
      simp_all [firstErr, anyStepErr, isOkE]

/-- The catch block logs the thrown message against the record code. -/
theorem logLine_of_firstErr (r : ProductRecord) (o : Outcome) (msg : String)
    (h : firstErr o = some msg) :
    processOneLogLine r o = LogLine.errorLog r.code msg := by
  rcases o with ⟨c, b, m, ra, pr⟩
  rcases c with e | ocr <;> rcases b with e2 | bomR <;> rcases m with e3 | mfgR <;>
    rcases ra with e4 | raw <;> rcases pr with e5 | proc <;>
      simp_all [firstErr, processOneLogLine]

/-- The per-record closure always reestablishes the emission-sum
invariant on its output. -/
theorem emissionInvariant_processOne (r : ProductRecord) (o : Outcome)
    (now : ℕ) : emissionInvariant (processOne r o now) := by
  rw [processOne_spec]
  cases hc : completedCase o with
  | none => intro h; simp [failedUpdate, processingUpdate] at h
  | some t =>
    obtain ⟨cr, bomR, mfgR, raw, proc⟩ := t
    intro _
    simp [completedUpdate, processingUpdate]

/-- Every persisted update with status `completed` carries the emission
sum computed in the same write. -/
theorem updates_completed_sum (r : ProductRecord) (o : Outcome) (now : ℕ) :
    ∀ s ∈ processOneUpdates r o now,
      s.aiProcessingStatus = some AIStatus.completed →
        s.co2Emission = s.co2EmissionRawMaterials + s.co2EmissionFromProcesses := by
  rw [processOneUpdates_shape]
  intro s hs
  rcases List.mem_cons.mp hs with h | h
  · subst h; intro hc; simp [processingUpdate] at hc
  · rw [List.mem_singleton] at h
    subst h
    exact emissionInvariant_processOne r o now

/-- Pointwise description of the orchestrator scan: the record at index
`i` is processed with its own outcome exactly when it is pending. -/
theorem processProductAI_get (records : List ProductRecord)
    (o : ℕ → Outcome) (now : ℕ) (i : ℕ) :
    (processProductAI records o now).get? i =
      (records.get? i).map
        (fun r => if isPending r then processOne r (o i) now else r) := by
  induction records generalizing o i with
  | nil => simp [processProductAI]
  | cons r rest ih =>
    cases i with
    | zero => simp [processProductAI]
    | succ n =>
      simp only [processProductAI, List.get?_cons_succ]
      exact ih (fun k => o (k + 1)) n

/-- The scan preserves the emission-sum invariant across the store. -/
theorem processProductAI_invariant (records : List ProductRecord)
    (o : ℕ → Outcome) (now : ℕ)
    (h : ∀ r ∈ records, emissionInvariant r) :
    ∀ r' ∈ processProductAI records o now, emissionInvariant r' := by
  induction records generalizing o with
  | nil => simp [processProductAI]
  | cons r rest ih =>
    intro r' hr'
    simp only [processProductAI, List.mem_cons] at hr'
    rcases hr' with h0 | hrest
    · subst h0
      by_cases hp : isPending r
      · simp only [hp, if_true]
        exact emissionInvariant_processOne r (o 0) now
      · simp only [hp, if_false]
        exact h r (List.mem_cons_self r rest)
    · exact ih (fun k => o (k + 1))
        (fun q hq => h q (List.mem_cons_of_mem r hq)) r' hrest

/-- Allowed status transitions of the state machine. -/
def allowedB : Option AIStatus → Option AIStatus → Bool
  | some AIStatus.pending, some AIStatus.processing => true
  | some AIStatus.processing, some AIStatus.completed => true
  | some AIStatus.processing, some AIStatus.failed => true
  | _, _ => false

/-- Statuses a record passes through while its closure runs, starting
from its state at scan time. -/
def statusTrace (r : ProductRecord) (o : Outcome) (now : ℕ) :
    List (Option AIStatus) :=
  (r :: processOneUpdates r o now).map (fun s => s.aiProcessingStatus)

/-- A pending record moves only along allowed transitions. -/
theorem statusTrace_chain (r : ProductRecord) (o : Outcome) (now : ℕ)
    (h : isPending r = true) :
    List.Chain' (fun a b => allowedB a b = true) (statusTrace r o now) := by
  have hst : r.aiProcessingStatus = some AIStatus.pending := by
    simpa [isPending] using h
  rw [statusTrace, processOneUpdates_shape]
  rw [processOne_spec]
  cases hc : completedCase o with
  | none =>
    simp [List.chain'_cons, hst, processingUpdate, failedUpdate, allowedB]
  | some t =>
    obtain ⟨cr, bomR, mfgR, raw, proc⟩ := t
    simp [List.chain'_cons, hst, processingUpdate, completedUpdate, allowedB]

/-- Once the closure has started, no persisted state is `pending` again. -/
theorem no_pending_in_updates (r : ProductRecord) (o : Outcome) (now : ℕ) :
    ∀ s ∈ processOneUpdates r o now,
      s.aiProcessingStatus ≠ some AIStatus.pending := by
  rw [processOneUpdates_shape, processOne_spec]
  intro s hs
  rcases List.mem_cons.mp hs with h | h
  · subst h; simp [processingUpdate]
  · rw [List.mem_singleton] at h
    subst h
    cases hc : completedCase o with
    | none => simp [failedUpdate, processingUpdate]
    | some t =>
      obtain ⟨cr, bomR, mfgR, raw, proc⟩ := t
      simp [completedUpdate, processingUpdate]

/-- Sample pending record for concrete witnesses. -/
def rec0 : ProductRecord :=
  { code := "P1", name := "Chair", description := "A chair", weight := none,
    countryOfOrigin := none, supplierName := none, category := none,
    subCategory := none, images := [], materials := [],
    productManufacturingProcess := [], co2Emission := 0,
    co2EmissionRawMaterials := 0, co2EmissionFromProcesses := 0,
    aiProcessingStatus := some AIStatus.pending, createdDate := 0,
    modifiedDate := 0 }

/-- Sample successful classification result. -/
def crOk : ClassifyResult :=
  { category := some "Furniture", subcategory := some "Chairs" }

/-- Sample all-successful collaborator outcome. -/
def outcOk : Outcome :=
  { classify := .ok (some crOk), bom := .ok [], mfg := .ok [],
    rawEmissions := .ok 2, procEmissions := .ok 3 }

/-- Sample outcome in which the classification call threw. -/
def outcErr : Outcome :=
  { classify := .error "boom", bom := .ok [], mfg := .ok [],
    rawEmissions := .ok 0, procEmissions := .ok 0 }

/-- Per-record outcomes with a failing first record and successful
second record. -/
def oDuo : ℕ → Outcome := fun i => if i = 0 then outcErr else outcOk

/-- C1: when the per-record calls return, the record is persisted with
status `completed` together with category, subcategory, materials,
manufacturing process, the three emission figures and a refreshed
modified timestamp if and only if the classification result carries both
a category and a subcategory; otherwise only status `failed` is
persisted and every classification/emissions field keeps its previous
value. -/
theorem C1_completed_iff_classified (r : ProductRecord) (o : Outcome)
    (now : ℕ) (ocr : Option ClassifyResult) (bomR : List Material)
    (mfgR : List ProcessGroup) (raw proc : ℚ)
    (hc : o.classify = .ok ocr) (hb : o.bom = .ok bomR)
    (hm : o.mfg = .ok mfgR) (hr : o.rawEmissions = .ok raw)
    (hp : o.procEmissions = .ok proc) :
    ((processOne r o now).aiProcessingStatus = some AIStatus.completed ↔
        classifyOk ocr = true) ∧
    (∀ cr, ocr = some cr → classifyOk ocr = true →
      (processOne r o now).category = cr.category ∧
      (processOne r o now).subCategory = cr.subcategory ∧
      (processOne r o now).materials = bomR ∧
      (processOne r o now).productManufacturingProcess = mfgR ∧
      (processOne r o now).co2Emission = raw + proc ∧
      (processOne r o now).co2EmissionRawMaterials = raw ∧
      (processOne r o now).co2EmissionFromProcesses = proc ∧
      (processOne r o now).modifiedDate = now) ∧
    (classifyOk ocr = false →
      (processOne r o now).aiProcessingStatus = some AIStatus.failed ∧
      (processOne r o now).category = r.category ∧
      (processOne r o now).subCategory = r.subCategory ∧
      (processOne r o now).materials = r.materials ∧
      (processOne r o now).productManufacturingProcess =
        r.productManufacturingProcess ∧
      (processOne r o now).co2Emission = r.co2Emission ∧
      (processOne r o now).co2EmissionRawMaterials =
        r.co2EmissionRawMaterials ∧
      (processOne r o now).co2EmissionFromProcesses =
        r.co2EmissionFromProcesses ∧
      (processOne r o now).modifiedDate = r.modifiedDate) := by
  rw [processOne_spec]
  rcases ocr with _ | cr
  · simp [completedCase, hc, hb, hm, hr, hp, classifyOk, failedUpdate,
      processingUpdate]
  · by_cases hok : truthyStr cr.category && truthyStr cr.subcategory
    · simp [completedCase, hc, hb, hm, hr, hp, hok, classifyOk,
        completedUpdate, processingUpdate]
    · simp [completedCase, hc, hb, hm, hr, hp, hok, classifyOk,
        failedUpdate, processingUpdate]

/-- Witness for C1 at a concrete record and outcome. -/
theorem C1_witness :
    (processOne rec0 outcOk 7).aiProcessingStatus = some AIStatus.completed ∧
    (processOne rec0 outcOk 7).co2Emission = 5 ∧
    (processOne rec0 outcOk 7).modifiedDate = 7 := by
  have h := C1_completed_iff_classified rec0 outcOk 7 (some crOk) [] [] 2 3
    rfl rfl rfl rfl rfl
  have hok : classifyOk (some crOk) = true := by decide
  refine ⟨h.1.mpr hok, ?_, ?_⟩
  · have := (h.2.1 crOk rfl hok).2.2.2.2.1
    rw [this]; norm_num
  · exact (h.2.1 crOk rfl hok).2.2.2.2.2.2.2

/-- C2: the single update that sets a record to `completed` also writes
`co2Emission` as the sum of `co2EmissionRawMaterials` and
`co2EmissionFromProcesses`, so across the store the sum invariant holds
for every completed record after any orchestrator scan that started from
a store satisfying it. -/
theorem C2_emission_sum_invariant :
    (∀ (records : List ProductRecord) (o : ℕ → Outcome) (now : ℕ),
      (∀ r ∈ records, emissionInvariant r) →
      ∀ r' ∈ processProductAI records o now, emissionInvariant r') ∧
    (∀ (r : ProductRecord) (o : Outcome) (now : ℕ),
      ∀ s ∈ processOneUpdates r o now,
        s.aiProcessingStatus = some AIStatus.completed →
          s.co2Emission =
            s.co2EmissionRawMaterials + s.co2EmissionFromProcesses) :=
  ⟨processProductAI_invariant, updates_completed_sum⟩

/-- Witness for C2 at a concrete store and outcome. -/
theorem C2_witness : emissionInvariant (processOne rec0 outcOk 7) := by
  have hmem : processOne rec0 outcOk 7 ∈
      processProductAI [rec0] (fun _ => outcOk) 7 := by
    have hp : isPending rec0 = true := by decide
    simp [processProductAI, hp]
  have hinv : ∀ r ∈ [rec0], emissionInvariant r := by
    intro r hr
    rw [List.mem_singleton] at hr
    subst hr
    intro hcontra
    simp [rec0] at hcontra
  exact C2_emission_sum_invariant.1 [rec0] (fun _ => outcOk) 7 hinv _ hmem

/-- C3: an error thrown by any step of the per-record pipeline is caught
for that record alone: the record is persisted as `failed`, the thrown
message is logged against its code, and the result for every other index
of the scan is unaffected by that record's outcome. -/
theorem C3_per_record_error_isolation :
    (∀ (r : ProductRecord) (o : Outcome) (now : ℕ),
      anyStepErr o = true →
        (processOne r o now).aiProcessingStatus = some AIStatus.failed ∧
        ∃ msg, processOneLogLine r o = LogLine.errorLog r.code msg) ∧
    (∀ (records : List ProductRecord) (o o' : ℕ → Outcome) (now : ℕ)
        (i : ℕ), o i = o' i →
      (processProductAI records o now).get? i =
        (processProductAI records o' now).get? i) ∧
    (∀ (records : List ProductRecord) (o : ℕ → Outcome) (now : ℕ) (i : ℕ)
        (r : ProductRecord), records.get? i = some r →
      (processProductAI records o now).get? i =
        some (if isPending r then processOne r (o i) now else r)) := by
  refine ⟨?_, ?_, ?_⟩
  · intro r o now herr
    constructor
    · rw [processOne_spec, completedCase_none_of_err o herr]
      simp [failedUpdate, processingUpdate]
    · obtain ⟨msg, hmsg⟩ := firstErr_some_of_err o herr
      exact ⟨msg, logLine_of_firstErr r o msg hmsg⟩
  · intro records o o' now i hoo
    rw [processProductAI_get, processProductAI_get, hoo]
  · intro records o now i r hi
    rw [processProductAI_get, hi, Option.map_some']

/-- Witness for C3: the first record's classification throws, the second
record is still fully processed. -/
theorem C3_witness :
    (processProductAI [rec0, rec0] oDuo 9).get? 1 =
      some (processOne rec0 outcOk 9) := by
  have h := C3_per_record_error_isolation.2.2 [rec0, rec0] oDuo 9 1 rec0 rfl
  rw [h]
  have hp : isPending rec0 = true := by decide
  have ho : oDuo 1 = outcOk := rfl
  rw [ho] at h ⊢
  simp [hp]

/-- C5: a record's status only moves along
pending to processing to completed-or-failed, never back to `pending`,
and a fresh scan leaves every non-pending record untouched. -/
theorem C5_status_transitions :
    (∀ (r : ProductRecord) (o : Outcome) (now : ℕ), isPending r = true →
      List.Chain' (fun a b => allowedB a b = true) (statusTrace r o now)) ∧
    (∀ (r : ProductRecord) (o : Outcome) (now : ℕ),
      ∀ s ∈ processOneUpdates r o now,
        s.aiProcessingStatus ≠ some AIStatus.pending) ∧
    (∀ (records : List ProductRecord) (o : ℕ → Outcome) (now : ℕ) (i : ℕ)
        (r : ProductRecord), records.get? i = some r →
      isPending r = false →
      (processProductAI records o now).get? i = some r) := by
  refine ⟨statusTrace_chain, no_pending_in_updates, ?_⟩
  intro records o now i r hi hnp
  rw [processProductAI_get, hi, Option.map_some', hnp]
  simp

/-- Witness for C5 at a concrete pending record. -/
theorem C5_witness :
    List.Chain' (fun a b => allowedB a b = true) (statusTrace rec0 outcOk 3) :=
  C5_status_transitions.1 rec0 outcOk 3 (by decide)

/-- A parsed data row: ordered association of column name to cell value,
as produced by the CSV/XLSX parser. -/
abbrev Row := List (String × String)

/-- Keys of a row object, in insertion order, as `Object.keys` yields. -/
def rowKeys (row : Row) : List String := row.map Prod.fst

/-- Value of a column in a row, as `product[csvField]` reads it. -/
def rowGet (row : Row) (k : String) : Option String :=
  (row.find? (fun p => p.1 == k)).map Prod.snd

/-- Field mapping sent with the request body (lines 89-98): each schema
field optionally bound to a source column name. -/
structure FieldMappings where
  code : Option String
  name : Option String
  description : Option String
  weight : Option String
  countryOfOrigin : Option String
  supplierName : Option String
  category : Option String
  subCategory : Option String
deriving DecidableEq, Repr

/-- Dynamic lookup `fieldMappings[schemaField]`. -/
def fmGet (fm : FieldMappings) : String → Option String
  | "code" => fm.code
  | "name" => fm.name
  | "description" => fm.description
  | "weight" => fm.weight
  | "countryOfOrigin" => fm.countryOfOrigin
  | "supplierName" => fm.supplierName
  | "category" => fm.category
  | "subCategory" => fm.subCategory
  | _ => none

/-- The required mappings of line 101. -/
def requiredMappings : List String := ["code", "name", "description"]

/-- All schema fields, in the key order of the mapping object. -/
def allMappingFields : List String :=
  ["code", "name", "description", "weight", "countryOfOrigin",
   "supplierName", "category", "subCategory"]

/-- JavaScript falsiness of a mapping entry, `!fieldMappings[field]`:
missing, or bound to the empty string. -/
def falsyMapping : Option String → Bool
  | none => true
  | some s => s == ""

/-- The required mappings absent from the request (line 102). -/
def missingMappings (fm : FieldMappings) : List String :=
  requiredMappings.filter (fun f => falsyMapping (fmGet fm f))

/-- The first parsed row, `products[0]`. -/
def firstRow (rows : List Row) : Row := rows.headD []

/-- The mapped required columns not among the keys of the first parsed
row (lines 113-123).  The source reads `Object.keys(products[0])`, not
the declared header row of the file. -/
def missingFields (fm : FieldMappings) (fileHeaders : List String) :
    List String :=
  (requiredMappings.filterMap (fun f => fmGet fm f)).filter
    (fun c => !(fileHeaders.contains c))

/-- A normalized product as built by the mapping loop (lines 140-156). -/
structure NormalizedProduct where
  fields : List (String × String)
  createdDate : ℕ
  modifiedDate : ℕ
deriving DecidableEq, Repr

/-- Apply the field mappings to one parsed row: a schema field is set
when its mapping is a truthy column name the row actually carries. -/
def normalizeRow (fm : FieldMappings) (now : ℕ) (row : Row) :
    NormalizedProduct :=
  { fields := allMappingFields.filterMap (fun schemaField =>
      match fmGet fm schemaField with
      | some csvField =>
        if csvField == "" then none
        else (rowGet row csvField).map (fun v => (schemaField, v))
      | none => none),
    createdDate := now, modifiedDate := now }

/-- Lookup of a normalized field, `product[field]`. -/
def npGet (np : NormalizedProduct) (f : String) : Option String :=
  (np.fields.find? (fun p => p.1 == f)).map Prod.snd

/-- The required fields of line 160. -/
def requiredFields : List String := ["code", "name", "description"]

/-- Executable model of JavaScript `String.prototype.trim`: strip
leading and trailing whitespace.  Written on the character list so that
concrete instances evaluate inside the kernel. -/
def jsTrim (s : String) : String :=
  String.mk ((s.data.dropWhile Char.isWhitespace).reverse.dropWhile
    Char.isWhitespace).reverse

/-- The per-row validity test of line 164:
`!product[field] || String(product[field]).trim() === ""`. -/
def fieldInvalid (np : NormalizedProduct) (f : String) : Bool :=
  match npGet np f with
  | none => true
  | some v => v == "" || jsTrim v == ""

/-- The error-map key of line 166. -/
def errKey (index : ℕ) (f : String) : String :=
  s!"Row {index + 2}, {f}"

/-- The error-map value of line 166. -/
def errMsg (fm : FieldMappings) (f : String) : String :=
  let csvField := (fmGet fm f).getD "undefined"
  s!"is required (mapped from column \x27{csvField}\x27)"

/-- The aggregated validation errors of lines 158-169: every row and
every required field is visited, keyed by `Row <n>, <field>` with the
row index offset by 2. -/
def validationErrorsFrom (fm : FieldMappings)
    (nps : List NormalizedProduct) (index : ℕ) : List (String × String) :=
  match nps with
  | [] => []
  | np :: rest =>
    (requiredFields.filterMap (fun f =>
      if fieldInvalid np f then some (errKey index f, errMsg fm f)
      else none)) ++ validationErrorsFrom fm rest (index + 1)

/-- Outcome of the bulk product upload pipeline. -/
inductive UploadResult where
  | noProducts
  | missingMappingsError (fields : List String)
  | missingFieldsError (missing available : List String)
  | validationError (errors : List (String × String))
  | created (products : List NormalizedProduct)
deriving DecidableEq, Repr

/-- True for the batch-insert outcome. -/
def UploadResult.isCreated : UploadResult → Bool
  | .created _ => true
  | _ => false

/-- The bulk upload pipeline (lines 80-196) on parsed rows: empty-file
check, required-mapping check, mapped-column check against the first
parsed row, normalization, per-row validation, then batch insert (the
inserted batch is stamped `aiProcessingStatus = pending` by the
following `updateMany`). -/
def bulkUploadProducts (rows : List Row) (fm : FieldMappings) (now : ℕ) :
    UploadResult :=
  if rows.isEmpty then .noProducts
  else
    let mm := missingMappings fm
    if !mm.isEmpty then
      .missingMappingsError (mm.map (fun f => s!"{f}Field"))
    else
      let fileHeaders := rowKeys (firstRow rows)
      let mf := missingFields fm fileHeaders
      if !mf.isEmpty then .missingFieldsError mf fileHeaders
      else
        let nps := rows.map (normalizeRow fm now)
        let errs := validationErrorsFrom fm nps 0
        if !errs.isEmpty then .validationError errs
        else .created nps

/-- A worksheet: a declared header row plus cell rows, `none` for an
empty cell. -/
structure Sheet where
  header : List String
  cells : List (List (Option String))
deriving Repr

/-- Modelled from the documented behaviour of the external collaborator
`XLSX.utils.sheet_to_json` under default options: every data row becomes
an object keyed by the header cells, empty cells are omitted from the
row object entirely, and fully blank rows are skipped. -/
def sheet_to_json (s : Sheet) : List Row :=
  (s.cells.map (fun row =>
    (s.header.zip row).filterMap (fun p =>
      match p.2 with
      | some v => some (p.1, v)
      | none => none))).filter (fun row => !row.isEmpty)

/-- A non-nil list is not empty. -/
theorem isEmptyFalse {α : Type} {l : List α} (h : l ≠ []) :
    l.isEmpty = false := by
  cases l with
  | nil => exact absurd rfl h
  | cons a t => rfl

/-- With required mappings absent, the pipeline stops at the
missing-mappings error. -/
theorem bulkUpload_missingMappings (rows : List Row) (fm : FieldMappings)
    (now : ℕ) (hne : rows ≠ []) (hmm : missingMappings fm ≠ []) :
    bulkUploadProducts rows fm now =
      UploadResult.missingMappingsError
        ((missingMappings fm).map (fun f => s!"{f}Field")) := by
  have h1 : rows.isEmpty = false := isEmptyFalse hne
  have h2 : (missingMappings fm).isEmpty = false := isEmptyFalse hmm
  simp [bulkUploadProducts, h1, h2]

/-- With mappings present but a required mapped column missing from the
first parsed row, the pipeline stops at the missing-fields error. -/
theorem bulkUpload_missingFieldsErr (rows : List Row)
    (fm : FieldMappings) (now : ℕ) (hne : rows ≠ [])
    (hmm : missingMappings fm = [])
    (hmf : missingFields fm (rowKeys (firstRow rows)) ≠ []) :
    bulkUploadProducts rows fm now =
      UploadResult.missingFieldsError
        (missingFields fm (rowKeys (firstRow rows)))
        (rowKeys (firstRow rows)) := by
  have h1 : rows.isEmpty = false := isEmptyFalse hne
  have h2 : (missingFields fm (rowKeys (firstRow rows))).isEmpty = false :=
    isEmptyFalse hmf
  simp [bulkUploadProducts, h1, hmm, h2]

/-- With all mapping checks passed, the pipeline either inserts the full
normalized batch or returns the aggregated validation errors. -/
theorem bulkUpload_validationStage (rows : List Row)
    (fm : FieldMappings) (now : ℕ) (hne : rows ≠ [])
    (hmm : missingMappings fm = [])
    (hmf : missingFields fm (rowKeys (firstRow rows)) = []) :
    bulkUploadProducts rows fm now =
      if validationErrorsFrom fm (rows.map (normalizeRow fm now)) 0 = []
      then UploadResult.created (rows.map (normalizeRow fm now))
      else UploadResult.validationError
        (validationErrorsFrom fm (rows.map (normalizeRow fm now)) 0) := by
  have h1 : rows.isEmpty = false := isEmptyFalse hne
  by_cases he : validationErrorsFrom fm (rows.map (normalizeRow fm now)) 0 = []
  · simp [bulkUploadProducts, h1, hmm, hmf, he]
  · have h3 : (validationErrorsFrom fm
        (rows.map (normalizeRow fm now)) 0).isEmpty = false := isEmptyFalse he
    simp [bulkUploadProducts, h1, hmm, hmf, he, h3]

/-- Membership in the missing-fields list: exactly the columns of the
three required mappings that the first parsed row does not carry. -/
theorem missingFields_mem_iff (fm : FieldMappings) (hdrs : List String)
    (c : String) :
    c ∈ missingFields fm hdrs ↔
      (∃ f ∈ requiredMappings, fmGet fm f = some c) ∧ c ∉ hdrs := by
  simp [missingFields, List.mem_filter, List.mem_filterMap]

/-- The aggregated error list is empty exactly when every row has all
required fields valid. -/
theorem validationErrors_nil_iff (fm : FieldMappings)
    (nps : List NormalizedProduct) (k : ℕ) :
    validationErrorsFrom fm nps k = [] ↔
      ∀ np ∈ nps, ∀ f ∈ requiredFields, fieldInvalid np f = false := by
  induction nps generalizing k with
  | nil => simp [validationErrorsFrom]
  | cons np rest ih =>
    simp only [validationErrorsFrom, List.append_eq_nil, List.mem_cons]
    rw [ih (k + 1)]
    constructor
    · rintro ⟨h1, h2⟩ np' hnp' f hf
      rcases hnp' with rfl | hnp'
      · have hnone := List.filterMap_eq_nil_iff.mp h1 f hf
        by_cases hfi : fieldInvalid np' f = true
        · rw [if_pos hfi] at hnone
          cases hnone
        · simpa using hfi
      · exact h2 np' hnp' f hf
    · intro h
      refine ⟨?_, fun np' h' f hf => h np' (Or.inr h') f hf⟩
      apply List.filterMap_eq_nil_iff.mpr
      intro f hf
      rw [h np (Or.inl rfl) f hf]
      simp

/-- Every violating row-field pair contributes its key to the aggregated
error map. -/
theorem validationErrors_key_mem (fm : FieldMappings)
    (nps : List NormalizedProduct) (k i : ℕ) (np : NormalizedProduct)
    (f : String) (hi : nps.get? i = some np) (hf : f ∈ requiredFields)
    (hinv : fieldInvalid np f = true) :
    errKey (k + i) f ∈ (validationErrorsFrom fm nps k).map Prod.fst := by
  induction nps generalizing k i with
  | nil => simp at hi
  | cons np0 rest ih =>
    cases i with
    | zero =>
      have hnp : np0 = np := by simpa using hi
      subst hnp
      simp only [validationErrorsFrom, List.map_append, List.mem_append]
      left
      apply List.mem_map.mpr
      refine ⟨(errKey k f, errMsg fm f), ?_, by simp⟩
      apply List.mem_filterMap.mpr
      exact ⟨f, hf, by rw [if_pos hinv]⟩
    | succ n =>
      simp only [validationErrorsFrom, List.map_append, List.mem_append]
      right
      have hrec := ih (k + 1) n (by simpa using hi)
      rw [show k + 1 + n = k + (n + 1) from by omega] at hrec
      exact hrec

/-- Every aggregated error entry comes from a violating row-field pair
and carries its key. -/
theorem validationErrors_complete (fm : FieldMappings)
    (nps : List NormalizedProduct) (k : ℕ) :
    ∀ e ∈ validationErrorsFrom fm nps k,
      ∃ i np f, nps.get? i = some np ∧ f ∈ requiredFields ∧
        fieldInvalid np f = true ∧ e.1 = errKey (k + i) f := by
  induction nps generalizing k with
  | nil => simp [validationErrorsFrom]
  | cons np0 rest ih =>
    intro e he
    simp only [validationErrorsFrom, List.mem_append] at he
    rcases he with he | he
    · obtain ⟨f, hf, hsome⟩ := List.mem_filterMap.mp he
      by_cases hfi : fieldInvalid np0 f = true
      · rw [if_pos hfi] at hsome
        refine ⟨0, np0, f, rfl, hf, hfi, ?_⟩
        rw [← Option.some_inj.mp hsome]
        simp
      · rw [if_neg hfi] at hsome
        cases hsome
    · obtain ⟨i, np, f, hi, hf2, hfi, hkey⟩ := ih (k + 1) e he
      exact ⟨i + 1, np, f, by simpa using hi, hf2, hfi,
        by rw [hkey, show k + 1 + i = k + (i + 1) from by omega]⟩

/-- Sample parsed rows and field mappings for concrete witnesses. -/
def rowA : Row := [("C", "1"), ("N", "n"), ("D", "d")]

/-- Sample row with an empty `name` cell. -/
def rowB : Row := [("C", "2"), ("N", ""), ("D", "d2")]

/-- Sample row lacking the description column. -/
def rowCN : Row := [("C", "1"), ("N", "n")]

/-- Mapping binding exactly the three required fields. -/
def fm0 : FieldMappings :=
  { code := some "C", name := some "N", description := some "D",
    weight := none, countryOfOrigin := none, supplierName := none,
    category := none, subCategory := none }

/-- Mapping also binding the optional `weight` field to a column the
file does not carry. -/
def fmW : FieldMappings := { fm0 with weight := some "W" }

/-- Mapping whose description column is absent from the file. -/
def fmD : FieldMappings := { fm0 with description := some "DescColumn" }

/-- Sample worksheet whose first data row has an empty `D` cell while
the header declares `D` and a later row carries it. -/
def sheet0 : Sheet :=
  { header := ["C", "N", "D"],
    cells := [[some "1", some "n", none], [some "2", some "n2", some "d2"]] }

/-- C6: once the mapping checks pass, either every normalized row has
valid code, name and description and the whole batch is inserted, or
nothing is inserted and a single aggregated validation error is
returned; the error map collects the violations of all rows, keyed by
`Row <n>, <field>` with the row index offset by 2, and contains nothing
else. -/
theorem C6_aggregated_row_validation (rows : List Row)
    (fm : FieldMappings) (now : ℕ) (hne : rows ≠ [])
    (hmm : missingMappings fm = [])
    (hmf : missingFields fm (rowKeys (firstRow rows)) = []) :
    (bulkUploadProducts rows fm now =
        UploadResult.created (rows.map (normalizeRow fm now)) ↔
      ∀ np ∈ rows.map (normalizeRow fm now), ∀ f ∈ requiredFields,
        fieldInvalid np f = false) ∧
    (validationErrorsFrom fm (rows.map (normalizeRow fm now)) 0 ≠ [] →
      bulkUploadProducts rows fm now =
        UploadResult.validationError
          (validationErrorsFrom fm (rows.map (normalizeRow fm now)) 0)) ∧
    (∀ i np f, (rows.map (normalizeRow fm now)).get? i = some np →
      f ∈ requiredFields → fieldInvalid np f = true →
      errKey i f ∈ (validationErrorsFrom fm
        (rows.map (normalizeRow fm now)) 0).map Prod.fst) ∧
    (∀ e ∈ validationErrorsFrom fm (rows.map (normalizeRow fm now)) 0,
      ∃ i np f, (rows.map (normalizeRow fm now)).get? i = some np ∧
        f ∈ requiredFields ∧ fieldInvalid np f = true ∧
        e.1 = errKey i f) := by
  have hstage := bulkUpload_validationStage rows fm now hne hmm hmf
  refine ⟨?_, ?_, ?_, ?_⟩
  · rw [hstage]
    by_cases he : validationErrorsFrom fm (rows.map (normalizeRow fm now)) 0 = []
    · rw [if_pos he]
      exact ⟨fun _ => (validationErrors_nil_iff fm _ 0).mp he, fun _ => rfl⟩
    · rw [if_neg he]
      constructor
      · intro hcontra
        cases hcontra
      · intro hall
        exact absurd ((validationErrors_nil_iff fm _ 0).mpr hall) he
  · intro herr
    rw [hstage, if_neg herr]
  · intro i np f hi hf hinv
    have := validationErrors_key_mem fm (rows.map (normalizeRow fm now))
      0 i np f hi hf hinv
    simpa using this
  · intro e he
    have := validationErrors_complete fm (rows.map (normalizeRow fm now)) 0 e he
    simpa using this

/-- Witness for C6: a batch with one valid and one invalid row is
rejected as a whole, and the second row's violation is keyed
`Row 3, name`. -/
theorem C6_witness :
    (bulkUploadProducts [rowA, rowB] fm0 5).isCreated = false ∧
    errKey 1 "name" ∈ (validationErrorsFrom fm0
      ([rowA, rowB].map (normalizeRow fm0 5)) 0).map Prod.fst := by
  have h := C6_aggregated_row_validation [rowA, rowB] fm0 5 (by decide)
    (by decide) (by decide)
  constructor
  · rw [h.2.1 (by decide)]
    rfl
  · exact h.2.2.1 1 (normalizeRow fm0 5 rowB) "name" (by decide) (by decide)
      (by decide)

/-- C7 (amended): the code, name and description mappings are mandatory
and their absence is rejected as missing mappings; any of these three
required mapped columns absent from the columns of the first parsed data
row is rejected, before any insert, with a single batch error listing
exactly the absent columns together with the available columns.
Optional mapped columns are not part of this check. -/
theorem C7_required_mapping_validation (rows : List Row)
    (fm : FieldMappings) (now : ℕ) (hne : rows ≠ []) :
    (missingMappings fm ≠ [] →
      bulkUploadProducts rows fm now =
        UploadResult.missingMappingsError
          ((missingMappings fm).map (fun f => s!"{f}Field"))) ∧
    (missingMappings fm = [] →
      missingFields fm (rowKeys (firstRow rows)) ≠ [] →
      bulkUploadProducts rows fm now =
        UploadResult.missingFieldsError
          (missingFields fm (rowKeys (firstRow rows)))
          (rowKeys (firstRow rows))) ∧
    (∀ c, c ∈ missingFields fm (rowKeys (firstRow rows)) ↔
      (∃ f ∈ requiredMappings, fmGet fm f = some c) ∧
        c ∉ rowKeys (firstRow rows)) :=
  ⟨fun hmm => bulkUpload_missingMappings rows fm now hne hmm,
   fun hmm hmf => bulkUpload_missingFieldsErr rows fm now hne hmm hmf,
   fun c => missingFields_mem_iff fm _ c⟩

/-- Counterexample to C7 as stated: the optional `weight` mapping points
at a column absent from the file, yet the batch is inserted rather than
rejected with a missing-columns error. -/
theorem C7_counterexample :
    (bulkUploadProducts [rowA] fmW 5).isCreated = true ∧
    fmW.weight = some "W" ∧
    rowKeys rowA = ["C", "N", "D"] := by
  refine ⟨?_, rfl, rfl⟩
  rfl

/-- Witness for C7 at a concrete file lacking the mapped description
column. -/
theorem C7_witness :
    bulkUploadProducts [rowCN] fmD 5 =
      UploadResult.missingFieldsError ["DescColumn"] ["C", "N"] := by
  have h := (C7_required_mapping_validation [rowCN] fmD 5 (by decide)).2.1
    (by decide) (by decide)
  rw [h]
  rfl

/-- C10: the mapped-column check is computed from the keys of the first
parsed data row, not the declared header: a required mapped column whose
cell is empty in the first data row of a spreadsheet is reported as a
missing field even when the column exists in the header row. -/
theorem C10_first_row_keys_check (s : Sheet) (fm : FieldMappings)
    (now : ℕ) (col : String) (hmm : missingMappings fm = [])
    (hdesc : fmGet fm "description" = some col)
    (hne : sheet_to_json s ≠ [])
    (hfirst : col ∉ rowKeys (firstRow (sheet_to_json s)))
    (_hheader : col ∈ s.header) :
    bulkUploadProducts (sheet_to_json s) fm now =
      UploadResult.missingFieldsError
        (missingFields fm (rowKeys (firstRow (sheet_to_json s))))
        (rowKeys (firstRow (sheet_to_json s))) ∧
    col ∈ missingFields fm (rowKeys (firstRow (sheet_to_json s))) := by
  have hmem : col ∈ missingFields fm (rowKeys (firstRow (sheet_to_json s))) :=
    (missingFields_mem_iff fm _ col).mpr
      ⟨⟨"description", by decide, hdesc⟩, hfirst⟩
  have hne2 : missingFields fm (rowKeys (firstRow (sheet_to_json s))) ≠ [] := by
    intro hcontra
    rw [hcontra] at hmem
    cases hmem
  exact ⟨bulkUpload_missingFieldsErr _ fm now hne hmm hne2, hmem⟩

/-- Witness for C10 at a concrete worksheet: `D` is in the header and in
the second data row, but its first-row cell is empty, so the upload is
rejected with `D` among the missing fields. -/
theorem C10_witness :
    bulkUploadProducts (sheet_to_json sheet0) fm0 5 =
      UploadResult.missingFieldsError ["D"] ["C", "N"] := by
  have h := C10_first_row_keys_check sheet0 fm0 5 "D" (by decide) rfl
    (by decide) (by decide) (by decide)
  rw [h.1]
  rfl

/-- Characters after the last dot of a character list, when a dot is
present. -/
def afterLastDot : List Char → Option (List Char)
  | [] => none
  | c :: rest =>
    match afterLastDot rest with
    | some s => some s
    | none => if c = '.' then some rest else none

/-- Model of node `path.extname`: the substring from the last dot of the
name, a dot in leading position starting no extension.  Written on the
character list so concrete instances evaluate. -/
def extname (name : String) : String :=
  match name.data with
  | [] => ""
  | _ :: rest =>
    match afterLastDot rest with
    | some suffix => String.mk ('.' :: suffix)
    | none => ""

/-- ASCII lowercase of a character. -/
def lowerChar (c : Char) : Char :=
  if 65 ≤ c.toNat ∧ c.toNat ≤ 90 then Char.ofNat (c.toNat + 32) else c

/-- ASCII lowercase of a string, the model of `toLowerCase`. -/
def lowerStr (s : String) : String := String.mk (s.data.map lowerChar)

/-- The image filter of line 430, the case-insensitive suffix test of
the regex on jpg, jpeg, png and gif. -/
def isImageFile (name : String) : Bool :=
  let l := (lowerStr name).data
  List.isSuffixOf ".jpg".data l || List.isSuffixOf ".jpeg".data l ||
    List.isSuffixOf ".png".data l || List.isSuffixOf ".gif".data l

/-- Model of `path.parse(name).name`: the file name without its
extension. -/
def stem (name : String) : String :=
  String.mk (name.data.take (name.data.length - (extname name).data.length))

/-- A top-level entry of the extracted archive: a product directory with
its contained file names, or a stray file. -/
inductive ArchiveEntry where
  | dir (name : String) (files : List String)
  | file (name : String)
deriving DecidableEq, Repr

/-- Behaviour of the RAR extractor on the uploaded data (lines 362-372):
a success state with the archived entries, a non-success state - which
the source silently ignores, writing nothing - or a thrown error. -/
inductive RarResult where
  | success (entries : List ArchiveEntry)
  | stateFail
  | throwErr (msg : String)
deriving DecidableEq, Repr

/-- `extractRarFile`: on a non-success extractor state nothing is
written and the call returns normally, so the extraction directory stays
empty. -/
def extractRarFile : RarResult → Except String (List ArchiveEntry)
  | .success entries => .ok entries
  | .stateFail => .ok []
  | .throwErr m => .error m

/-- Inputs of one bulk-image-upload request: the request file, the
account scope, the caller origin, the behaviour of the two extractors
and of the external image host - `uploadErr p` is the thrown message
when uploading image path `p` fails - and the generated unique names. -/
structure ImageUploadArgs where
  hasFile : Bool
  originalname : String
  account : String
  host : String
  zipResult : Except String (List ArchiveEntry)
  rarResult : RarResult
  uploadErr : String → Option String
  genName : ℕ → String

/-- The per-account scratch directory of line 389. -/
def tempDirOf (a : ImageUploadArgs) : String := "temp/" ++ a.account

/-- The saved archive path of line 390. -/
def uploadedFilePathOf (a : ImageUploadArgs) : String :=
  tempDirOf a ++ "/" ++ a.originalname

/-- The extraction directory of lines 403-406. -/
def extractionDirOf (a : ImageUploadArgs) : String :=
  tempDirOf a ++ "/" ++ stem a.originalname

/-- Filesystem mutations performed by the endpoint. -/
inductive FsEv where
  | ensureDir (p : String)
  | writeFile (p : String)
  | extractTo (src dst : String)
  | removeDir (p : String)
  | unlinkFile (p : String)
deriving DecidableEq, Repr

/-- True for the scratch-directory creations. -/
def FsEv.isEnsureDir : FsEv → Bool
  | .ensureDir _ => true
  | _ => false

/-- Coarse filesystem state: the directories and files the endpoint
touches by path.  Extracted archive content lives under the extraction
directory and is removed with it, so it is not tracked separately. -/
structure FsState where
  dirs : List String
  files : List String
deriving DecidableEq, Repr

/-- Effect of one filesystem mutation. -/
def applyEv (s : FsState) : FsEv → FsState
  | .ensureDir p =>
    { s with dirs := if s.dirs.contains p then s.dirs else s.dirs ++ [p] }
  | .writeFile p =>
    { s with files := if s.files.contains p then s.files else s.files ++ [p] }
  | .extractTo _ _ => s
  | .removeDir p => { s with dirs := s.dirs.filter (fun q => !(q == p)) }
  | .unlinkFile p => { s with files := s.files.filter (fun q => !(q == p)) }

/-- Distribution progress: the `$push` updates issued so far - pairs of
product code and download URL, in order - and the count of uploads, used
to index generated names. -/
structure DistState where
  pushes : List (String × String)
  counter : ℕ
deriving DecidableEq, Repr

/-- The inner image loop of lines 432-451: upload each image in order,
and after each successful upload immediately push the download URL onto
the record with the directory's code; a throwing upload aborts the loop. -/
def uploadLoop (host : String) (uploadErr : String → Option String)
    (genName : ℕ → String) (code : String) :
    List String → DistState → DistState × Option String
  | [], st => (st, none)
  | img :: rest, st =>
    let imagePath := code ++ "/" ++ img
    match uploadErr imagePath with
    | some m => (st, some m)
    | none =>
      let nm := genName st.counter
      let ext := extname imagePath
      let url := host ++ "/content/notes/uploads/images/" ++ s!"file-{nm}{ext}"
      uploadLoop host uploadErr genName code rest
        { pushes := st.pushes ++ [(code, url)], counter := st.counter + 1 }

/-- The outer directory loop of lines 420-453: each directory's files
are filtered to images and uploaded sequentially, stray top-level files
are skipped, and an error aborts the remaining loop. -/
def distLoop (host : String) (uploadErr : String → Option String)
    (genName : ℕ → String) :
    List ArchiveEntry → DistState → DistState × Option String
  | [], st => (st, none)
  | .file _ :: rest, st => distLoop host uploadErr genName rest st
  | .dir code files :: rest, st =>
    match uploadLoop host uploadErr genName code
        (files.filter isImageFile) st with
    | (st', none) => distLoop host uploadErr genName rest st'
    | (st', some m) => (st', some m)

/-- Responses of the endpoint. -/
inductive HttpResponse where
  | badRequest (msg : String)
  | ok (msg : String)
  | serverError (msg : String)
deriving DecidableEq, Repr

/-- Result of the try block: filesystem mutations, `$push` updates, the
caught error if one was thrown, and whether the orchestrator trigger of
line 456 was reached. -/
structure TryResult where
  events : List FsEv
  pushes : List (String × String)
  err : Option String
  aiTriggered : Bool
deriving Repr

/-- Error message of line 416. -/
def unsupportedMsg : String :=
  "Unsupported file type. Only ZIP and RAR are allowed."

/-- Success message of lines 458-462. -/
def successMsg : String := "Files uploaded and processed successfully"

/-- The scratch setup of lines 397-407: ensure the account directory,
save the archive, create the extraction directory. -/
def setupEvents (a : ImageUploadArgs) : List FsEv :=
  [FsEv.ensureDir (tempDirOf a), FsEv.writeFile (uploadedFilePathOf a),
   FsEv.ensureDir (extractionDirOf a)]

/-- Distribution over extracted entries, after a real extraction wrote
into the extraction directory. -/
def runDist (a : ImageUploadArgs) (entries : List ArchiveEntry) : TryResult :=
  let ev := setupEvents a ++
    [FsEv.extractTo (uploadedFilePathOf a) (extractionDirOf a)]
  match distLoop a.host a.uploadErr a.genName entries ⟨[], 0⟩ with
  | (st, none) =>
    { events := ev, pushes := st.pushes, err := none, aiTriggered := true }
  | (st, some m) =>
    { events := ev, pushes := st.pushes, err := some m, aiTriggered := false }

/-- Distribution when the RAR extractor reported a non-success state:
nothing was written, the extraction directory reads as empty. -/
def runDistEmpty (a : ImageUploadArgs) : TryResult :=
  match distLoop a.host a.uploadErr a.genName [] ⟨[], 0⟩ with
  | (st, none) =>
    { events := setupEvents a, pushes := st.pushes, err := none,
      aiTriggered := true }
  | (st, some m) =>
    { events := setupEvents a, pushes := st.pushes, err := some m,
      aiTriggered := false }

/-- The try block of lines 393-462. -/
def tryPhase (a : ImageUploadArgs) : TryResult :=
  let ext := lowerStr (extname a.originalname)
  if ext == ".zip" then
    match a.zipResult with
    | .error m =>
      { events := setupEvents a, pushes := [], err := some m,
        aiTriggered := false }
    | .ok entries => runDist a entries
  else if ext == ".rar" then
    match a.rarResult with
    | .throwErr m =>
      { events := setupEvents a, pushes := [], err := some m,
        aiTriggered := false }
    | .stateFail => runDistEmpty a
    | .success entries => runDist a entries
  else
    { events := setupEvents a, pushes := [], err := some unsupportedMsg,
      aiTriggered := false }

/-- The finally block of lines 470-486: remove the extraction directory
if it exists, then unlink the saved archive if it exists; one catch
wraps both, so a throwing removal skips the unlink, and cleanup failures
are logged only. -/
def cleanupEvents (a : ImageUploadArgs) (fs : FsState)
    (removeDirFails unlinkFails : Bool) : List FsEv :=
  if fs.dirs.contains (extractionDirOf a) then
    if removeDirFails then []
    else
      let fs1 := applyEv fs (FsEv.removeDir (extractionDirOf a))
      if fs1.files.contains (uploadedFilePathOf a) then
        if unlinkFails then [FsEv.removeDir (extractionDirOf a)]
        else [FsEv.removeDir (extractionDirOf a),
              FsEv.unlinkFile (uploadedFilePathOf a)]
      else [FsEv.removeDir (extractionDirOf a)]
  else
    if fs.files.contains (uploadedFilePathOf a) then
      if unlinkFails then [] else [FsEv.unlinkFile (uploadedFilePathOf a)]
    else []

/-- Observable outcome of one bulk-image-upload call. -/
structure ImageUploadOutcome where
  response : HttpResponse
  events : List FsEv
  pushes : List (String × String)
  fsFinal : FsState
  aiTriggered : Bool
deriving Repr

/-- The whole endpoint `bulkImageUpload`: no-file guard, try block,
response from the caught error if any, then cleanup.  The two Bool
arguments model a throwing cleanup primitive. -/
def bulkImageUpload (a : ImageUploadArgs)
    (removeDirFails unlinkFails : Bool) : ImageUploadOutcome :=
  if !a.hasFile then
    { response := .badRequest "No file uploaded", events := [], pushes := [],
      fsFinal := ⟨[], []⟩, aiTriggered := false }
  else
    let t := tryPhase a
    let fsTry := t.events.foldl applyEv ⟨[], []⟩
    let cev := cleanupEvents a fsTry removeDirFails unlinkFails
    { response :=
        match t.err with
        | none => .ok successMsg
        | some m => .serverError m,
      events := t.events ++ cev,
      pushes := t.pushes,
      fsFinal := cev.foldl applyEv fsTry,
      aiTriggered := t.aiTriggered }

/-- The `$push` of lines 444-447 on the record store: append the URL to
the images of the first record carrying the code; no matching record is
a silent no-op. -/
def applyPush (code url : String) :
    List (String × List String) → List (String × List String)
  | [] => []
  | (c, imgs) :: rest =>
    if c == code then (c, imgs ++ [url]) :: rest
    else (c, imgs) :: applyPush code url rest

/-- All `$push` updates of one request applied in order. -/
def applyPushes (db : List (String × List String))
    (ps : List (String × String)) : List (String × List String) :=
  ps.foldl (fun d p => applyPush p.1 p.2 d) db

/-- The images list of the record with the given code. -/
def dbImages (db : List (String × List String)) (code : String) :
    Option (List String) :=
  (db.find? (fun p => p.1 == code)).map Prod.snd

/-- The upload attempts of the directory/image loop in iteration order:
pairs of directory code and image path. -/
def imageAttempts : List ArchiveEntry → List (String × String)
  | [] => []
  | .file _ :: rest => imageAttempts rest
  | .dir code files :: rest =>
    (files.filter isImageFile).map (fun img => (code, code ++ "/" ++ img)) ++
      imageAttempts rest

/-- True when the external host accepts the attempt. -/
def goodAttempt (uploadErr : String → Option String)
    (p : String × String) : Bool :=
  (uploadErr p.2).isNone

/-- takeWhile passes over a fully satisfying prefix. -/
theorem takeWhile_append_of_all {α : Type} (p : α → Bool) (l1 l2 : List α)
    (h : ∀ x ∈ l1, p x = true) :
    (l1 ++ l2).takeWhile p = l1 ++ l2.takeWhile p := by
  induction l1 with
  | nil => simp
  | cons a t ih =>
    have ha := h a (List.mem_cons_self a t)
    simp [List.takeWhile_cons, ha,
      ih (fun x hx => h x (List.mem_cons_of_mem a hx))]

/-- dropWhile passes over a fully satisfying prefix. -/
theorem dropWhile_append_of_all {α : Type} (p : α → Bool) (l1 l2 : List α)
    (h : ∀ x ∈ l1, p x = true) :
    (l1 ++ l2).dropWhile p = l2.dropWhile p := by
  induction l1 with
  | nil => simp
  | cons a t ih =>
    have ha := h a (List.mem_cons_self a t)
    simp [List.dropWhile_cons, ha,
      ih (fun x hx => h x (List.mem_cons_of_mem a hx))]

/-- takeWhile stopping inside the first part ignores the second. -/
theorem takeWhile_append_of_stop {α : Type} (p : α → Bool) (l1 l2 : List α)
    (h : l1.dropWhile p ≠ []) :
    (l1 ++ l2).takeWhile p = l1.takeWhile p := by
  induction l1 with
  | nil => simp [List.dropWhile_nil] at h
  | cons a t ih =>
    by_cases ha : p a = true
    · rw [List.dropWhile_cons, if_pos ha] at h
      simp [List.takeWhile_cons, ha, ih h]
    · have ha2 : p a = false := by simpa using ha
      simp [List.takeWhile_cons, ha2]

/-- dropWhile stopping inside the first part keeps the second whole. -/
theorem dropWhile_append_of_stop {α : Type} (p : α → Bool) (l1 l2 : List α)
    (h : l1.dropWhile p ≠ []) :
    (l1 ++ l2).dropWhile p = l1.dropWhile p ++ l2 := by
  induction l1 with
  | nil => simp [List.dropWhile_nil] at h
  | cons a t ih =>
    by_cases ha : p a = true
    · rw [List.dropWhile_cons, if_pos ha] at h
      simp [List.dropWhile_cons, ha, ih h]
    · have ha2 : p a = false := by simpa using ha
      simp [List.dropWhile_cons, ha2]

/-- takeWhile through a map. -/
theorem takeWhile_map_comp {α β : Type} (f : α → β) (p : β → Bool)
    (l : List α) :
    (l.map f).takeWhile p = (l.takeWhile (fun a => p (f a))).map f := by
  induction l with
  | nil => simp
  | cons a t ih =>
    by_cases ha : p (f a) = true
    · simp [List.takeWhile_cons, ha, ih]
    · have ha2 : p (f a) = false := by simpa using ha
      simp [List.takeWhile_cons, ha2]

/-- dropWhile through a map. -/
theorem dropWhile_map_comp {α β : Type} (f : α → β) (p : β → Bool)
    (l : List α) :
    (l.map f).dropWhile p = (l.dropWhile (fun a => p (f a))).map f := by
  induction l with
  | nil => simp
  | cons a t ih =>
    by_cases ha : p (f a) = true
    · simp [List.dropWhile_cons, ha, ih]
    · have ha2 : p (f a) = false := by simpa using ha
      simp [List.dropWhile_cons, ha2]

/-- The head left behind by dropWhile fails the predicate. -/
theorem dropWhile_head_false {α : Type} (p : α → Bool) (l : List α)
    (a : α) (t : List α) (h : l.dropWhile p = a :: t) : p a = false := by
  induction l with
  | nil => cases h
  | cons x xs ih =>
    by_cases hx : p x = true
    · rw [List.dropWhile_cons, if_pos hx] at h
      exact ih h
    · rw [List.dropWhile_cons, if_neg hx] at h
      obtain ⟨rfl, -⟩ := List.cons.inj h
      simpa using hx

/-- The inner upload loop: it pushes one URL per image of the longest
successful prefix, in order, each onto the directory's code, and stops
at the first image the host rejects, returning its thrown message. -/
theorem uploadLoop_spec (host : String) (ue : String → Option String)
    (gn : ℕ → String) (code : String) (images : List String)
    (st : DistState) :
    ((uploadLoop host ue gn code images st).1.pushes.map Prod.fst =
      st.pushes.map Prod.fst ++
        (images.takeWhile
          (fun img => (ue (code ++ "/" ++ img)).isNone)).map
            (fun _ => code)) ∧
    ((uploadLoop host ue gn code images st).2 =
      match images.dropWhile
          (fun img => (ue (code ++ "/" ++ img)).isNone) with
      | [] => none
      | img :: _ => ue (code ++ "/" ++ img)) := by
  induction images generalizing st with
  | nil => simp [uploadLoop]
  | cons img rest ih =>
    cases hue : ue (code ++ "/" ++ img) with
    | some m =>
      constructor
      · simp [uploadLoop, hue, List.takeWhile_cons]
      · simp [uploadLoop, hue, List.dropWhile_cons]
    | none =>
      constructor
      · simp only [uploadLoop, hue]
        rw [(ih _).1]
        simp [hue, List.takeWhile_cons]
      · simp only [uploadLoop, hue]
        rw [(ih _).2]
        simp [hue, List.dropWhile_cons]

/-- The outer directory loop: pushes cover exactly the attempts of the
longest successful prefix of the flattened attempt list, and the first
rejected attempt's thrown message is the loop's error. -/
theorem distLoop_spec (host : String) (ue : String → Option String)
    (gn : ℕ → String) (entries : List ArchiveEntry) (st : DistState) :
    ((distLoop host ue gn entries st).1.pushes.map Prod.fst =
      st.pushes.map Prod.fst ++
        ((imageAttempts entries).takeWhile (goodAttempt ue)).map Prod.fst) ∧
    ((distLoop host ue gn entries st).2 =
      match (imageAttempts entries).dropWhile (goodAttempt ue) with
      | [] => none
      | p :: _ => ue p.2) := by
  induction entries generalizing st with
  | nil => simp [distLoop, imageAttempts]
  | cons e rest ih =>
    cases e with
    | file n => simpa [distLoop, imageAttempts] using ih st
    | dir code files =>
      have hu := uploadLoop_spec host ue gn code (files.filter isImageFile) st
      rcases hul : uploadLoop host ue gn code (files.filter isImageFile) st
        with ⟨st', eo⟩
      rw [hul] at hu
      cases hdrop : (files.filter isImageFile).dropWhile
          (fun img => (ue (code ++ "/" ++ img)).isNone) with
      | nil =>
        have hall : ∀ x ∈ files.filter isImageFile,
            (ue (code ++ "/" ++ x)).isNone = true := by
          intro x hx
          exact List.dropWhile_eq_nil_iff.mp hdrop x hx
        have htake : (files.filter isImageFile).takeWhile
            (fun img => (ue (code ++ "/" ++ img)).isNone) =
              files.filter isImageFile :=
          List.takeWhile_eq_self_iff.mpr hall
        have heo : eo = none := by
          have h2 := hu.2
          rw [hdrop] at h2
          simpa using h2
        subst heo
        have hall2 : ∀ x ∈ (files.filter isImageFile).map
            (fun img => (code, code ++ "/" ++ img)), goodAttempt ue x = true := by
          intro x hx
          obtain ⟨img, himg, rfl⟩ := List.mem_map.mp hx
          exact hall img himg
        constructor
        · simp only [distLoop, hul]
          rw [(ih st').1, hu.1, htake, imageAttempts,
            takeWhile_append_of_all _ _ _ hall2, List.map_append,
            List.map_map, List.append_assoc]
          rfl
        · simp only [distLoop, hul]
          rw [(ih st').2, imageAttempts,
            dropWhile_append_of_all _ _ _ hall2]
      | cons img0 imgs2 =>
        have pfalse : (ue (code ++ "/" ++ img0)).isNone = false :=
          dropWhile_head_false
            (fun img => (ue (code ++ "/" ++ img)).isNone)
            (files.filter isImageFile) img0 imgs2 hdrop
        have hstop : ((files.filter isImageFile).map
            (fun img => (code, code ++ "/" ++ img))).dropWhile
              (goodAttempt ue) =
            (img0 :: imgs2).map (fun img => (code, code ++ "/" ++ img)) := by
          rw [dropWhile_map_comp]
          rw [show ((files.filter isImageFile).dropWhile
            (fun a => goodAttempt ue (code, code ++ "/" ++ a))) =
              ((files.filter isImageFile).dropWhile
                (fun img => (ue (code ++ "/" ++ img)).isNone)) from rfl, hdrop]
        have hstopne : ((files.filter isImageFile).map
            (fun img => (code, code ++ "/" ++ img))).dropWhile
              (goodAttempt ue) ≠ [] := by
          rw [hstop]
          simp
        have heo : eo = ue (code ++ "/" ++ img0) := by
          have h2 := hu.2
          rw [hdrop] at h2
          simpa using h2
        cases hm : ue (code ++ "/" ++ img0) with
        | none => rw [hm] at pfalse; cases pfalse
        | some m =>
          rw [hm] at heo
          subst heo
          constructor
          · simp only [distLoop, hul]
            rw [hu.1, imageAttempts, takeWhile_append_of_stop _ _ _ hstopne,
              takeWhile_map_comp, List.map_map]
            rw [show ((files.filter isImageFile).takeWhile
              (fun a => goodAttempt ue (code, code ++ "/" ++ a))) =
                ((files.filter isImageFile).takeWhile
                  (fun img => (ue (code ++ "/" ++ img)).isNone)) from rfl]
            rfl
          · simp only [distLoop, hul]
            rw [imageAttempts, dropWhile_append_of_stop _ _ _ hstopne, hstop]
            simp [hm]

/-- Distribution after a real extraction: events, pushes and error. -/
theorem runDist_spec (a : ImageUploadArgs) (entries : List ArchiveEntry) :
    (runDist a entries).events = setupEvents a ++
      [FsEv.extractTo (uploadedFilePathOf a) (extractionDirOf a)] ∧
    (runDist a entries).pushes.map Prod.fst =
      ((imageAttempts entries).takeWhile
        (goodAttempt a.uploadErr)).map Prod.fst ∧
    (runDist a entries).err =
      (match (imageAttempts entries).dropWhile (goodAttempt a.uploadErr) with
       | [] => none
       | p :: _ => a.uploadErr p.2) := by
  have h := distLoop_spec a.host a.uploadErr a.genName entries ⟨[], 0⟩
  rcases hd : distLoop a.host a.uploadErr a.genName entries ⟨[], 0⟩
    with ⟨st, e⟩
  rw [hd] at h
  have h1 := h.1
  have h2 := h.2
  simp only [List.map_nil, List.nil_append] at h1
  cases e with
  | none =>
    refine ⟨by simp [runDist, hd], ?_, ?_⟩
    · simpa [runDist, hd] using h1
    · simpa [runDist, hd] using h2
  | some m =>
    refine ⟨by simp [runDist, hd], ?_, ?_⟩
    · simpa [runDist, hd] using h1
    · simpa [runDist, hd] using h2

/-- Distribution after a silently failed RAR extraction: no mutation, no
push, no error, and the orchestrator trigger is reached. -/
theorem runDistEmpty_spec (a : ImageUploadArgs) :
    (runDistEmpty a).events = setupEvents a ∧
    (runDistEmpty a).pushes = [] ∧
    (runDistEmpty a).err = none ∧
    (runDistEmpty a).aiTriggered = true :=
  ⟨rfl, rfl, rfl, rfl⟩

/-- The try block performs no filesystem mutation beyond the scratch
setup and the extraction write. -/
theorem tryPhase_events_shape (a : ImageUploadArgs) :
    (tryPhase a).events = setupEvents a ∨
    (tryPhase a).events = setupEvents a ++
      [FsEv.extractTo (uploadedFilePathOf a) (extractionDirOf a)] := by
  by_cases hz : (lowerStr (extname a.originalname) == ".zip") = true
  · cases hzr : a.zipResult with
    | error m => left; simp [tryPhase, hz, hzr]
    | ok entries =>
      right
      have h := (runDist_spec a entries).1
      simp only [tryPhase, hz, if_true, hzr]
      exact h
  · by_cases hr : (lowerStr (extname a.originalname) == ".rar") = true
    · cases hrr : a.rarResult with
      | success entries =>
        right
        have h := (runDist_spec a entries).1
        simp only [tryPhase, hz, hr, if_true, if_false, hrr]
        exact h
      | stateFail =>
        left
        have h := (runDistEmpty_spec a).1
        simp only [tryPhase, hz, hr, if_true, if_false, hrr]
        exact h
      | throwErr m => left; simp [tryPhase, hz, hr, hrr]
    · left; simp [tryPhase, hz, hr]

/-- After the try block the extraction directory exists and exactly the
saved archive file exists. -/
theorem fsTry_spec (a : ImageUploadArgs) :
    ((tryPhase a).events.foldl applyEv ⟨[], []⟩).dirs.contains
      (extractionDirOf a) = true ∧
    ((tryPhase a).events.foldl applyEv ⟨[], []⟩).files =
      [uploadedFilePathOf a] := by
  rcases tryPhase_events_shape a with h | h <;> rw [h] <;>
    simp only [setupEvents, List.foldl_cons, List.foldl_nil] <;>
    simp [applyEv] <;>
    by_cases hq : extractionDirOf a = tempDirOf a <;> simp [hq]

/-- Removing by path removes every occurrence of the path. -/
theorem contains_filter_self {α : Type} [BEq α] [LawfulBEq α]
    (l : List α) (p : α) :
    (l.filter (fun q => !(q == p))).contains p = false := by
  induction l with
  | nil => rfl
  | cons a t ih =>
    by_cases ha : (a == p) = true
    · rw [List.filter_cons, if_neg (by simp [ha])]
      exact ih
    · have ha2 : ¬ a = p := by simpa using ha
      have ha3 : (p == a) = false := by
        simpa using fun hc => ha2 hc.symm
      simp [List.filter_cons, ha, List.contains_cons, ha3, ih]

/-- The cleanup block with succeeding primitives removes the extraction
directory and then the saved archive. -/
theorem cleanup_removes (a : ImageUploadArgs) (fs : FsState)
    (hdir : fs.dirs.contains (extractionDirOf a) = true)
    (hfiles : fs.files = [uploadedFilePathOf a]) :
    cleanupEvents a fs false false =
      [FsEv.removeDir (extractionDirOf a),
       FsEv.unlinkFile (uploadedFilePathOf a)] := by
  have hcon : (uploadedFilePathOf a) ∈ (applyEv fs
      (FsEv.removeDir (extractionDirOf a))).files := by
    simp [applyEv, hfiles]
  have hdir2 : (extractionDirOf a) ∈ fs.dirs := by
    simpa using hdir
  simp [cleanupEvents, hdir2, hcon]

/-- A record already carrying images keeps them, possibly extended,
through one push. -/
theorem dbImages_applyPush_mono (db : List (String × List String))
    (code url c : String) (imgs : List String)
    (h : dbImages db c = some imgs) :
    ∃ extra, dbImages (applyPush code url db) c = some (imgs ++ extra) := by
  induction db generalizing imgs with
  | nil => simp [dbImages] at h
  | cons kv rest ih =>
    obtain ⟨c0, imgs0⟩ := kv
    by_cases h0 : (c0 == c) = true
    · have himgs : imgs = imgs0 := by
        simp [dbImages, List.find?_cons_of_pos, h0] at h
        exact h.symm
      subst himgs
      by_cases hpush : (c0 == code) = true
      · refine ⟨[url], ?_⟩
        simp [applyPush, hpush, dbImages, List.find?_cons_of_pos, h0]
      · refine ⟨[], ?_⟩
        simp [applyPush, hpush, dbImages, List.find?_cons_of_pos, h0]
    · have hrest : dbImages rest c = some imgs := by
        simpa [dbImages, List.find?_cons_of_neg, h0] using h
      by_cases hpush : (c0 == code) = true
      · refine ⟨[], ?_⟩
        simpa [applyPush, hpush, dbImages, List.find?_cons_of_neg, h0]
          using hrest
      · obtain ⟨extra, hex⟩ := ih imgs hrest
        refine ⟨extra, ?_⟩
        simpa [applyPush, hpush, dbImages, List.find?_cons_of_neg, h0]
          using hex

/-- A record already carrying images keeps them, possibly extended,
through a whole sequence of pushes: nothing is ever rolled back. -/
theorem dbImages_applyPushes_mono (ps : List (String × String))
    (db : List (String × List String)) (c : String) (imgs : List String)
    (h : dbImages db c = some imgs) :
    ∃ extra, dbImages (applyPushes db ps) c = some (imgs ++ extra) := by
  induction ps generalizing db imgs with
  | nil => exact ⟨[], by simpa [applyPushes]⟩
  | cons p rest ih =>
    obtain ⟨e1, h1⟩ := dbImages_applyPush_mono db p.1 p.2 c imgs h
    obtain ⟨e2, h2⟩ := ih (applyPush p.1 p.2 db) (imgs ++ e1) h1
    refine ⟨e1 ++ e2, ?_⟩
    rw [← List.append_assoc]
    simpa [applyPushes] using h2

/-- Response and pushes of the endpoint come from the try block alone;
the cleanup flags play no part in them. -/
theorem bulkImageUpload_from_try (a : ImageUploadArgs)
    (rdF uF : Bool) (hf : a.hasFile = true) :
    (bulkImageUpload a rdF uF).response =
      (match (tryPhase a).err with
       | none => HttpResponse.ok successMsg
       | some m => HttpResponse.serverError m) ∧
    (bulkImageUpload a rdF uF).pushes = (tryPhase a).pushes := by
  simp [bulkImageUpload, hf]

/-- Archive whose RAR extraction reports a non-success state. -/
def argRarFail : ImageUploadArgs :=
  { hasFile := true, originalname := "a.rar", account := "acc", host := "h",
    zipResult := .ok [], rarResult := .stateFail,
    uploadErr := fun _ => none, genName := fun _ => "u" }

/-- Archive with an unsupported extension. -/
def argTxt : ImageUploadArgs :=
  { hasFile := true, originalname := "a.txt", account := "acc", host := "h",
    zipResult := .ok [], rarResult := .stateFail,
    uploadErr := fun _ => none, genName := fun _ => "u" }

/-- ZIP archive whose second image upload is rejected by the host. -/
def argFail : ImageUploadArgs :=
  { hasFile := true, originalname := "imgs.zip", account := "acc",
    host := "h",
    zipResult := .ok [ArchiveEntry.dir "P1" ["a.jpg", "b.jpg"]],
    rarResult := .stateFail,
    uploadErr := fun p => if p == "P1/b.jpg" then some "host down" else none,
    genName := fun _ => "u" }

/-- C4 (amended): an unsupported archive extension, an extraction error
thrown by the extractor, or any image-upload failure aborts the
remaining directory/image loop and the operation is reported as a single
failure, while the pushes cover exactly the attempts before the first
failing one and the record store only ever grows - nothing is rolled
back.  A RAR extraction that completes with a non-success extractor
state, however, is silently treated as an empty archive and reported as
success. -/
theorem C4_abort_and_partial_persistence (a : ImageUploadArgs)
    (rdF uF : Bool) (db : List (String × List String))
    (hf : a.hasFile = true) :
    ((lowerStr (extname a.originalname) == ".zip") = false →
     (lowerStr (extname a.originalname) == ".rar") = false →
      (bulkImageUpload a rdF uF).response =
        HttpResponse.serverError unsupportedMsg ∧
      (bulkImageUpload a rdF uF).pushes = []) ∧
    (∀ m, (lowerStr (extname a.originalname) == ".zip") = true →
      a.zipResult = .error m →
      (bulkImageUpload a rdF uF).response = HttpResponse.serverError m ∧
      (bulkImageUpload a rdF uF).pushes = []) ∧
    (∀ m, (lowerStr (extname a.originalname) == ".zip") = false →
      (lowerStr (extname a.originalname) == ".rar") = true →
      a.rarResult = RarResult.throwErr m →
      (bulkImageUpload a rdF uF).response = HttpResponse.serverError m ∧
      (bulkImageUpload a rdF uF).pushes = []) ∧
    (∀ entries, (lowerStr (extname a.originalname) == ".zip") = true →
      a.zipResult = .ok entries →
      ((bulkImageUpload a rdF uF).pushes.map Prod.fst =
        ((imageAttempts entries).takeWhile
          (goodAttempt a.uploadErr)).map Prod.fst) ∧
      ((bulkImageUpload a rdF uF).response = HttpResponse.ok successMsg ↔
        (imageAttempts entries).dropWhile (goodAttempt a.uploadErr) = []) ∧
      (∀ p ps m,
        (imageAttempts entries).dropWhile (goodAttempt a.uploadErr) =
          p :: ps →
        a.uploadErr p.2 = some m →
        (bulkImageUpload a rdF uF).response =
          HttpResponse.serverError m)) ∧
    ((lowerStr (extname a.originalname) == ".zip") = false →
     (lowerStr (extname a.originalname) == ".rar") = true →
      a.rarResult = RarResult.stateFail →
      (bulkImageUpload a rdF uF).response = HttpResponse.ok successMsg ∧
      (bulkImageUpload a rdF uF).pushes = []) ∧
    (∀ c imgs, dbImages db c = some imgs →
      ∃ extra,
        dbImages (applyPushes db (bulkImageUpload a rdF uF).pushes) c =
          some (imgs ++ extra)) := by
  have hbt := bulkImageUpload_from_try a rdF uF hf
  refine ⟨?_, ?_, ?_, ?_, ?_, ?_⟩
  · intro hz hr
    have ht : tryPhase a =
        { events := setupEvents a, pushes := [],
          err := some unsupportedMsg, aiTriggered := false } := by
      simp [tryPhase, hz, hr]
    rw [hbt.1, hbt.2, ht]
    exact ⟨rfl, rfl⟩
  · intro m hz hzr
    have ht : tryPhase a =
        { events := setupEvents a, pushes := [],
          err := some m, aiTriggered := false } := by
      simp [tryPhase, hz, hzr]
    rw [hbt.1, hbt.2, ht]
    exact ⟨rfl, rfl⟩
  · intro m hz hr hrr
    have ht : tryPhase a =
        { events := setupEvents a, pushes := [],
          err := some m, aiTriggered := false } := by
      simp [tryPhase, hz, hr, hrr]
    rw [hbt.1, hbt.2, ht]
    exact ⟨rfl, rfl⟩
  · intro entries hz hzr
    have hrd := runDist_spec a entries
    have ht : tryPhase a = runDist a entries := by
      simp [tryPhase, hz, hzr]
    refine ⟨?_, ?_, ?_⟩
    · rw [hbt.2, ht]
      exact hrd.2.1
    · rw [hbt.1, ht]
      cases hdw : (imageAttempts entries).dropWhile
          (goodAttempt a.uploadErr) with
      | nil =>
        have herr : (runDist a entries).err = none := by
          rw [hrd.2.2, hdw]
        rw [herr]
        simp
      | cons p ps =>
        have hpf : goodAttempt a.uploadErr p = false :=
          dropWhile_head_false (goodAttempt a.uploadErr)
            (imageAttempts entries) p ps hdw
        have hex : ∃ m, a.uploadErr p.2 = some m := by
          cases hm2 : a.uploadErr p.2 with
          | none =>
            rw [goodAttempt, hm2] at hpf
            cases hpf
          | some m => exact ⟨m, rfl⟩
        obtain ⟨m, hm2⟩ := hex
        have herr : (runDist a entries).err = some m := by
          rw [hrd.2.2, hdw]
          exact hm2
        rw [herr]
        constructor
        · intro hcontra
          cases hcontra
        · intro hcontra
          cases hcontra
    · intro p ps m hdw hm2
      have herr : (runDist a entries).err = some m := by
        rw [hrd.2.2, hdw]
        exact hm2
      rw [hbt.1, ht, herr]
  · intro hz hr hrr
    have ht : tryPhase a = runDistEmpty a := by
      simp [tryPhase, hz, hr, hrr]
    rw [hbt.1, hbt.2, ht]
    exact ⟨rfl, rfl⟩
  · intro c imgs h
    exact dbImages_applyPushes_mono (bulkImageUpload a rdF uF).pushes
      db c imgs h

/-- Counterexample to C4 as stated: a RAR extraction failure - the
extractor reporting a non-success state - does not fail the operation;
it is reported as a success. -/
theorem C4_counterexample :
    (bulkImageUpload argRarFail false false).response =
      HttpResponse.ok successMsg ∧
    argRarFail.rarResult = RarResult.stateFail ∧
    lowerStr (extname argRarFail.originalname) = ".rar" :=
  ⟨rfl, rfl, rfl⟩

/-- Witness for C4: the second of two images is rejected by the host;
the operation fails with that error and exactly the first image was
pushed. -/
theorem C4_witness :
    (bulkImageUpload argFail false false).response =
      HttpResponse.serverError "host down" ∧
    (bulkImageUpload argFail false false).pushes.map Prod.fst = ["P1"] := by
  have h := (C4_abort_and_partial_persistence argFail false false []
    rfl).2.2.2.1 [ArchiveEntry.dir "P1" ["a.jpg", "b.jpg"]] rfl rfl
  refine ⟨?_, ?_⟩
  · exact h.2.2 ("P1", "P1/b.jpg") [] "host down" rfl rfl
  · rw [h.1]
    rfl

/-- C8 (amended): an archive whose extension is neither zip nor rar
fails with the unsupported-type error before any extraction and before
any upload; at that point the only filesystem mutations are creating the
two scratch directories and saving the uploaded archive into the scratch
area. -/
theorem C8_unsupported_extension (a : ImageUploadArgs) (rdF uF : Bool)
    (hf : a.hasFile = true)
    (hz : (lowerStr (extname a.originalname) == ".zip") = false)
    (hr : (lowerStr (extname a.originalname) == ".rar") = false) :
    (bulkImageUpload a rdF uF).response =
      HttpResponse.serverError unsupportedMsg ∧
    (tryPhase a).events =
      [FsEv.ensureDir (tempDirOf a), FsEv.writeFile (uploadedFilePathOf a),
       FsEv.ensureDir (extractionDirOf a)] ∧
    (tryPhase a).pushes = [] ∧
    (tryPhase a).aiTriggered = false := by
  have hbt := bulkImageUpload_from_try a rdF uF hf
  have ht : tryPhase a =
      { events := setupEvents a, pushes := [],
        err := some unsupportedMsg, aiTriggered := false } := by
    simp [tryPhase, hz, hr]
  refine ⟨?_, ?_, ?_, ?_⟩
  · rw [hbt.1, ht]
  · rw [ht]
    rfl
  · rw [ht]
  · rw [ht]

/-- Counterexample to C8 as stated: when the unsupported-type error is
raised, the uploaded archive has already been written into the scratch
area - a filesystem mutation beyond creating the scratch directories. -/
theorem C8_counterexample :
    (bulkImageUpload argTxt false false).response =
      HttpResponse.serverError unsupportedMsg ∧
    FsEv.writeFile "temp/acc/a.txt" ∈ (tryPhase argTxt).events ∧
    ((tryPhase argTxt).events.all FsEv.isEnsureDir) = false := by
  refine ⟨rfl, ?_, rfl⟩
  decide

/-- Witness for C8 at the concrete unsupported upload. -/
theorem C8_witness :
    (bulkImageUpload argTxt false false).response =
      HttpResponse.serverError unsupportedMsg ∧
    (tryPhase argTxt).pushes = [] := by
  have h := C8_unsupported_extension argTxt false false rfl rfl rfl
  exact ⟨h.1, h.2.2.1⟩

/-- C9: after every call - success or failure at any stage - the scratch
extraction directory and the saved archive file no longer exist when the
cleanup primitives succeed, and a throwing cleanup primitive changes
neither the response nor the persisted pushes. -/
theorem C9_cleanup_guarantees (a : ImageUploadArgs) (rdF uF : Bool) :
    ((bulkImageUpload a false false).fsFinal.dirs.contains
      (extractionDirOf a) = false ∧
     (bulkImageUpload a false false).fsFinal.files.contains
      (uploadedFilePathOf a) = false) ∧
    (bulkImageUpload a rdF uF).response =
      (bulkImageUpload a false false).response ∧
    (bulkImageUpload a rdF uF).pushes =
      (bulkImageUpload a false false).pushes := by
  by_cases hf : a.hasFile = true
  · have hfs := fsTry_spec a
    have hclean := cleanup_removes a
      ((tryPhase a).events.foldl applyEv ⟨[], []⟩) hfs.1 hfs.2
    have hfin : (bulkImageUpload a false false).fsFinal =
        applyEv (applyEv ((tryPhase a).events.foldl applyEv ⟨[], []⟩)
          (FsEv.removeDir (extractionDirOf a)))
          (FsEv.unlinkFile (uploadedFilePathOf a)) := by
      simp [bulkImageUpload, hf, hclean]
    refine ⟨⟨?_, ?_⟩, ?_⟩
    · rw [hfin]
      simp only [applyEv]
      exact contains_filter_self _ _
    · rw [hfin]
      simp only [applyEv]
      exact contains_filter_self _ _
    · have h1 := bulkImageUpload_from_try a rdF uF hf
      have h2 := bulkImageUpload_from_try a false false hf
      rw [h1.1, h2.1, h1.2, h2.2]
      exact ⟨rfl, rfl⟩
  · have hff : a.hasFile = false := by simpa using hf
    refine ⟨⟨?_, ?_⟩, ?_, ?_⟩ <;> simp [bulkImageUpload, hff]

end LCA
